import Mathlib

/-!
# Verification of the mqtt-benchmark-subscriber measurement core

A shallow embedding of the concurrent multi-worker measurement core of the
mqtt-benchmark-subscriber tool (Go), together with theorems about its
worker receive/measure loop (`Client.Run` in `client.go`), its inbound-frame
decoding (`Client.receiveMessages`), its result collection loop (`main`), and
its aggregator (`calculateTotalResults`).

Modelling conventions:
* `int64` / `int` values are modelled as `Int` (or `Nat` for the receive
  counter, which only ever counts up from 0); the benchmark never approaches
  2^63, so wrap-around is immaterial.
* `float64` values are modelled exactly as `ℚ`, except the two
  standard-deviation fields, which the code produces with `math.Sqrt` and are
  therefore modelled in `ℝ` via `Real.sqrt`.
* A channel is modelled by the sequence of values delivered on it; a receive
  from a channel that never delivers again is a permanent block, modelled as
  `none`.
-/

/-- Publisher-side payload (`Payload` in the source), decoded verbatim from
JSON.  `GeneratedAt` is a Unix timestamp in nanoseconds. -/
structure Payload where
  GeneratedAt : Int
  ClientId : Int
  MessageId : Int
deriving DecidableEq

/-- A received message (`Message` in the source): the decoded payload plus the
arrival timestamp `time.Now().UnixNano()` taken in the `onMessage` callback of
`Client.receiveMessages`. -/
structure Message where
  Payload : Payload
  ReceivedAt : Int
deriving DecidableEq

/-- Model of `stats.StatsMean` (GaryBoone/GoStats): the arithmetic mean.
On an empty sample the Go library produces a non-number; in `ℚ` division by
zero yields the junk value 0.  The core never takes a mean of an empty sample
(`main` validates `count ≥ 1` and `clients ≥ 1`). -/
def StatsMean (xs : List ℚ) : ℚ := xs.sum / (xs.length : ℚ)

/-- Model of `stats.StatsMin`: the minimum of the sample (junk value 0 on an
empty sample, unreachable in the core). -/
def StatsMin (xs : List ℚ) : ℚ :=
  match xs with
  | [] => 0
  | x :: rest => rest.foldl min x

/-- Model of `stats.StatsMax`: the maximum of the sample (junk value 0 on an
empty sample, unreachable in the core). -/
def StatsMax (xs : List ℚ) : ℚ :=
  match xs with
  | [] => 0
  | x :: rest => rest.foldl max x

/-- Model of `stats.StatsSampleVariance`: the sum of squared deviations from
the mean divided by `n - 1`. -/
def StatsSampleVariance (xs : List ℚ) : ℚ :=
  ((xs.map (fun v => (v - StatsMean xs) ^ 2)).sum) / ((xs.length : ℚ) - 1)

/-- Model of `stats.StatsSampleStandardDeviation`: square root of the sample
variance.  The square root forces this value into `ℝ`. -/
noncomputable def StatsSampleStandardDeviation (xs : List ℚ) : ℝ :=
  Real.sqrt (StatsSampleVariance xs)

/-- `RunResults` from the source: the per-worker result record.  Latency
fields are in nanoseconds. -/
structure RunResults where
  ID : Int
  Successes : Int
  RunTime : ℚ
  MsgTimeMin : ℚ
  MsgTimeMax : ℚ
  MsgTimeMean : ℚ
  MsgTimeStd : ℝ
  MsgsPerSec : ℚ
  Duplicates : Int

/-- `TotalResults` from the source: the aggregate result record.  The field
` Ratio` is serialized as "ratio" and is never assigned anywhere in the
program; it keeps the zero value it gets from `new(TotalResults)`. -/
structure TotalResults where
  Ratio : ℚ
  Successes : Int
  TotalRunTime : ℚ
  AvgRunTime : ℚ
  MsgTimeMin : ℚ
  MsgTimeMax : ℚ
  MsgTimeMeanAvg : ℚ
  MsgTimeMeanStd : ℝ
  TotalMsgsPerSec : ℚ
  AvgMsgsPerSec : ℚ
  Duplicates : Int

/-- The fields of `Client` that the measurement loop reads.  The remaining
fields of the Go struct (broker URL, credentials, topic, QoS, TLS material)
only configure the external MQTT transport collaborator and never influence
`Client.Run` beyond which messages arrive; they are not modelled.
`ReceiveCount` is `int64` in Go and validated to be ≥ 1 by `main`; it is
modelled as `Nat` (it is only used as a size and an upper bound for the
counter counting up from 0). -/
structure Client where
  ID : Int
  ReceiveCount : Nat

/-- The latency of one stored message, as computed in `Client.Run`:
`float64(message.ReceivedAt - message.Payload.GeneratedAt)` (nanoseconds,
negative if clocks are skewed). -/
def latency (m : Message) : ℚ := ((m.ReceivedAt - m.Payload.GeneratedAt : Int) : ℚ)

/-- The receive loop of `Client.Run`, as a function of the sequence `msgs` of
messages the `received` channel delivers.  State: `slots` is the written
prefix of the message array and `soFar` is `receivedSoFar`.  The Go code
writes the message at index `receivedSoFar` of an array pre-sized to
`ReceiveCount`; indices are written in increasing order starting from 0, so
the written prefix is modelled as a list extended at the end.  The `else`
branch (message not stored, only logged as surplus) and the progress log are
observable only as log lines.  `none` models the worker blocking forever on
`<-received` because the channel never delivers another message. -/
def runLoop (c : Client) (slots : List Message) (soFar : Nat) :
    List Message → Option (List Message × Nat)
  | [] => none
  | m :: rest =>
    let slots' := if soFar < c.ReceiveCount then slots ++ [m] else slots
    let soFar' := soFar + 1
    if c.ReceiveCount ≤ soFar' then some (slots', soFar')
    else runLoop c slots' soFar' rest

/-- Model of `Client.Run`: run the receive loop on the delivered message
sequence `msgs`, then build the `RunResults` record exactly as the source
does.  `duration` is the wall-clock time from the first arrival to the
loop-terminating arrival (`time.Since(*started)`, in seconds) — a real-time
quantity that is a free parameter of the model.  Division by a zero duration
gives `+Inf` in Go and the junk value 0 in `ℚ`; no claim touches that case.
The standard deviation is computed only when `ReceiveCount > 1`, otherwise
the field keeps its zero value (the source comment calls this a convention
to avoid NaN). -/
noncomputable def Client.Run (c : Client) (msgs : List Message) (duration : ℚ) :
    Option RunResults :=
  match runLoop c [] 0 msgs with
  | none => none
  | some (slots, soFar) =>
    let latencies := slots.map latency
    some {
      ID := c.ID
      Successes := (slots.length : Int)
      RunTime := duration
      MsgTimeMin := StatsMin latencies
      MsgTimeMax := StatsMax latencies
      MsgTimeMean := StatsMean latencies
      MsgTimeStd := if 1 < c.ReceiveCount then StatsSampleStandardDeviation latencies else 0
      MsgsPerSec := (slots.length : ℚ) / duration
      Duplicates := (soFar : Int) - (c.ReceiveCount : Int)
    }

/-- The `onMessage` callback of `Client.receiveMessages`, as a function of an
inbound frame.  A frame is modelled by the outcome of `json.Unmarshal` on its
raw bytes (`none` = malformed) paired with the `time.Now().UnixNano()` value
at decode time.  A malformed frame is logged and dropped (`none`); a
well-formed one is forwarded to the worker's channel as a `Message`. -/
def onMessage (frame : Option Payload × Int) : Option Message :=
  match frame.1 with
  | none => none
  | some p => some { Payload := p, ReceivedAt := frame.2 }

/-- Model of `Client.receiveMessages`: the sequence of messages forwarded on
the `received` channel is the decode-filtered sequence of inbound frames. -/
def receiveMessages (frames : List (Option Payload × Int)) : List Message :=
  frames.filterMap onMessage

/-- The body of the aggregation loop in `calculateTotalResults`: one `res` is
folded into the running totals.  Mirrors the source statement by statement;
`res.MsgTimeMin < totals.MsgTimeMin` and `res.MsgTimeMax > totals.MsgTimeMax`
guard the min/max updates. -/
def aggStep (acc : TotalResults) (res : RunResults) : TotalResults :=
  { acc with
    Successes := acc.Successes + res.Successes
    TotalMsgsPerSec := acc.TotalMsgsPerSec + res.MsgsPerSec
    Duplicates := acc.Duplicates + res.Duplicates
    MsgTimeMin := if res.MsgTimeMin < acc.MsgTimeMin then res.MsgTimeMin else acc.MsgTimeMin
    MsgTimeMax := if acc.MsgTimeMax < res.MsgTimeMax then res.MsgTimeMax else acc.MsgTimeMax }

/-- Model of `calculateTotalResults`.  The Go code allocates `totals` with
`new(TotalResults)` (every field zero), seeds `totals.MsgTimeMin` from
`results[0]` (an access that panics on an empty slice — modelled as `none`;
`main` guarantees at least one client), folds the loop body over `results`,
and finally overwrites the four mean/std fields.  The slices `msgTimeMeans`,
`msgsPerSecs` and `runTimes` that the loop fills index-by-index are exactly
the maps of the corresponding fields (`bws` is filled but never read).
`MsgTimeMax` is never seeded: it starts at the zero value 0. -/
noncomputable def calculateTotalResults (results : List RunResults) (totalTime : ℚ)
    (sampleSize : Int) : Option TotalResults :=
  match results with
  | [] => none
  | r0 :: _ =>
    let init : TotalResults :=
      { Ratio := 0
        Successes := 0
        TotalRunTime := totalTime
        AvgRunTime := 0
        MsgTimeMin := r0.MsgTimeMin
        MsgTimeMax := 0
        MsgTimeMeanAvg := 0
        MsgTimeMeanStd := 0
        TotalMsgsPerSec := 0
        AvgMsgsPerSec := 0
        Duplicates := 0 }
    let t := results.foldl aggStep init
    let msgTimeMeans := results.map fun res => res.MsgTimeMean
    let msgsPerSecs := results.map fun res => res.MsgsPerSec
    let runTimes := results.map fun res => res.RunTime
    some { t with
      AvgMsgsPerSec := StatsMean msgsPerSecs
      AvgRunTime := StatsMean runTimes
      MsgTimeMeanAvg := StatsMean msgTimeMeans
      MsgTimeMeanStd := if 1 < sampleSize then StatsSampleStandardDeviation msgTimeMeans else 0 }

/-- Model of the result-collection loop in `main`:
`for i := 0..W-1 { results[i] = <-resCh }`.  The shared result channel is
modelled by the sequence of results in arrival order; the loop stores the
i-th arriving result at index i and returns once exactly `W` results have
been received.  `none` models the collector blocking forever on a result
that never arrives. -/
def collectResults (W : Nat) (arrivals : List RunResults) : Option (List RunResults) :=
  if W ≤ arrivals.length then some (arrivals.take W) else none

/-- The sample standard deviation as the specification words it: the square
root of the sum of squared deviations from the arithmetic mean, divided by
`n - 1`.  Stated independently of the GoStats model so that the two can be
compared. -/
noncomputable def specSampleStdDev (xs : List ℚ) : ℝ :=
  Real.sqrt (((xs.map (fun v => (v - xs.sum / (xs.length : ℚ)) ^ 2)).sum /
    ((xs.length : ℚ) - 1) : ℚ))

/-! ## Helper lemmas about the receive loop -/

/-- When at least `ReceiveCount - soFar` further messages arrive, the receive
loop terminates with the next `ReceiveCount - soFar` messages appended to the
slot prefix and the counter at exactly `ReceiveCount`. -/
theorem runLoop_eq_take (c : Client) (msgs : List Message) :
    ∀ (slots : List Message) (soFar : Nat),
      soFar < c.ReceiveCount → c.ReceiveCount - soFar ≤ msgs.length →
      runLoop c slots soFar msgs =
        some (slots ++ msgs.take (c.ReceiveCount - soFar), c.ReceiveCount) := by
  induction msgs with
  | nil =>
    intro slots soFar hlt hle
    simp only [List.length_nil] at hle
    omega
  | cons m rest ih =>
    intro slots soFar hlt hle
    simp only [runLoop, if_pos hlt]
    by_cases hend : c.ReceiveCount ≤ soFar + 1
    · have h1 : c.ReceiveCount - soFar = 1 := by omega
      have h2 : c.ReceiveCount = soFar + 1 := by omega
      rw [if_pos hend, h1]
      simp [h2]
    · rw [if_neg hend]
      have h1 : soFar + 1 < c.ReceiveCount := by omega
      have h2 : c.ReceiveCount - (soFar + 1) ≤ rest.length := by
        simp only [List.length_cons] at hle; omega
      rw [ih (slots ++ [m]) (soFar + 1) h1 h2]
      have h3 : c.ReceiveCount - soFar = (c.ReceiveCount - (soFar + 1)) + 1 := by omega
      rw [h3, List.take_succ_cons]
      simp

/-- If the receive loop terminates then the channel delivered at least
`ReceiveCount - soFar` further messages. -/
theorem runLoop_some_length (c : Client) (msgs : List Message) :
    ∀ (slots : List Message) (soFar : Nat) (out : List Message × Nat),
      runLoop c slots soFar msgs = some out →
      c.ReceiveCount - soFar ≤ msgs.length := by
  induction msgs with
  | nil =>
    intro slots soFar out h
    simp [runLoop] at h
  | cons m rest ih =>
    intro slots soFar out h
    simp only [runLoop] at h
    by_cases hend : c.ReceiveCount ≤ soFar + 1
    · simp only [List.length_cons]; omega
    · rw [if_neg hend] at h
      have := ih _ (soFar + 1) out h
      simp only [List.length_cons]; omega

/-- Full characterization of a successful worker run with `ReceiveCount ≥ 1`:
the result record computed over the first `ReceiveCount` delivered messages. -/
theorem Run_eq (c : Client) (msgs : List Message) (d : ℚ)
    (hN : 0 < c.ReceiveCount) (hlen : c.ReceiveCount ≤ msgs.length) :
    c.Run msgs d = some {
      ID := c.ID
      Successes := (c.ReceiveCount : Int)
      RunTime := d
      MsgTimeMin := StatsMin ((msgs.take c.ReceiveCount).map latency)
      MsgTimeMax := StatsMax ((msgs.take c.ReceiveCount).map latency)
      MsgTimeMean := StatsMean ((msgs.take c.ReceiveCount).map latency)
      MsgTimeStd := if 1 < c.ReceiveCount then
          StatsSampleStandardDeviation ((msgs.take c.ReceiveCount).map latency) else 0
      MsgsPerSec := (c.ReceiveCount : ℚ) / d
      Duplicates := 0 } := by
  have h := runLoop_eq_take c msgs [] 0 hN (by omega)
  rw [Nat.sub_zero, List.nil_append] at h
  have hlt : (msgs.take c.ReceiveCount).length = c.ReceiveCount := by
    rw [List.length_take]; omega
  rw [Client.Run, h]
  simp [List.length_map, hlt]

/-- A worker with `ReceiveCount ≥ 1` only terminates when the channel delivers
at least `ReceiveCount` messages. -/
theorem Run_some_length (c : Client) (msgs : List Message) (d : ℚ) (r : RunResults)
    (h : c.Run msgs d = some r) : c.ReceiveCount ≤ msgs.length := by
  rw [Client.Run] at h
  rcases hr : runLoop c [] 0 msgs with _ | out
  · rw [hr] at h; exact absurd h (by simp)
  · have := runLoop_some_length c msgs [] 0 out hr
    omega

/-! ## Concrete values used in witnesses and counterexamples -/

/-- A concrete well-formed message: generated at 100 ns, received at 110 ns. -/
def msgA : Message :=
  { Payload := { GeneratedAt := 100, ClientId := 0, MessageId := 0 }, ReceivedAt := 110 }

/-- A concrete well-formed message: generated at 200 ns, received at 220 ns. -/
def msgB : Message :=
  { Payload := { GeneratedAt := 200, ClientId := 0, MessageId := 1 }, ReceivedAt := 220 }

/-! ## Worker claims -/

/-- C2: for every `ReceiveCount = N > 0`, a worker whose channel delivers
exactly N well-formed messages terminates and reports `Successes = N` and
`Duplicates = 0` in its worker result. -/
theorem worker_exact_feed (c : Client) (msgs : List Message) (d : ℚ)
    (hN : 0 < c.ReceiveCount) (hlen : msgs.length = c.ReceiveCount) :
    ∃ r, c.Run msgs d = some r ∧
      r.Successes = (c.ReceiveCount : Int) ∧ r.Duplicates = 0 :=
  ⟨_, Run_eq c msgs d hN (le_of_eq hlen.symm), rfl, rfl⟩

/-- Witness for C2 at `ReceiveCount = 2` and two delivered messages. -/
theorem worker_exact_feed_witness :
    0 < (2 : Nat) ∧ [msgA, msgB].length = 2 ∧
    ∃ r, Client.Run ⟨7, 2⟩ [msgA, msgB] 1 = some r ∧
      r.Successes = 2 ∧ r.Duplicates = 0 :=
  ⟨by decide, by decide, worker_exact_feed ⟨7, 2⟩ [msgA, msgB] 1 (by decide) (by decide)⟩

/-- C1 is false on the code: with `ReceiveCount = 1` and a channel delivering
2 well-formed messages (K = 1), the worker result has `Duplicates = 0`, not
`K = 1`.  The loop returns the moment `receivedSoFar` reaches `ReceiveCount`,
so it never consumes a surplus message. -/
theorem worker_duplicates_counterexample :
    Option.map RunResults.Duplicates (Client.Run ⟨0, 1⟩ [msgA, msgB] 1) = some 0 ∧
    some (0 : Int) ≠ some (1 : Int) := by
  constructor
  · rw [Run_eq ⟨0, 1⟩ [msgA, msgB] 1 (by decide) (by decide)]
    rfl
  · decide

/-- C1 (amended): for every `ReceiveCount = N > 0` and every `K ≥ 0`, a worker
whose channel delivers N + K well-formed messages consumes only the first N of
them — its run equals the run fed just those N — and reports `Duplicates = 0`;
the surplus branch of the loop never executes. -/
theorem worker_surplus (c : Client) (msgs : List Message) (d : ℚ)
    (K : Nat) (hN : 0 < c.ReceiveCount) (hlen : msgs.length = c.ReceiveCount + K) :
    ∃ r, c.Run msgs d = some r ∧ r.Duplicates = 0 ∧
      c.Run msgs d = c.Run (msgs.take c.ReceiveCount) d := by
  have hle : c.ReceiveCount ≤ msgs.length := by omega
  have h1 := Run_eq c msgs d hN hle
  have h2 := Run_eq c (msgs.take c.ReceiveCount) d hN (by rw [List.length_take]; omega)
  refine ⟨_, h1, rfl, ?_⟩
  rw [h1, h2, List.take_take, min_self]

/-- Witness for the amended C1 at `ReceiveCount = 1`, K = 1. -/
theorem worker_surplus_witness :
    0 < (1 : Nat) ∧ [msgA, msgB].length = 1 + 1 ∧
    ∃ r, Client.Run ⟨0, 1⟩ [msgA, msgB] 1 = some r ∧ r.Duplicates = 0 ∧
      Client.Run ⟨0, 1⟩ [msgA, msgB] 1 = Client.Run ⟨0, 1⟩ ([msgA, msgB].take 1) 1 :=
  ⟨by decide, by decide, worker_surplus ⟨0, 1⟩ [msgA, msgB] 1 1 (by decide) (by decide)⟩

/-- C5: a worker result's `MsgTimeStd` equals the sample standard deviation of
its latency sample set (the latencies of the first `ReceiveCount` delivered
messages) when `ReceiveCount > 1`, and is exactly 0 when `ReceiveCount = 1`
(a real number, not NaN: the convention avoids evaluating the 0/0 sample
variance of a singleton sample). -/
theorem worker_latency_std (c : Client) (msgs : List Message) (d : ℚ) (r : RunResults)
    (h : c.Run msgs d = some r) :
    (c.ReceiveCount = 1 → r.MsgTimeStd = 0) ∧
    (1 < c.ReceiveCount →
      r.MsgTimeStd = specSampleStdDev ((msgs.take c.ReceiveCount).map latency)) := by
  have hstd : 0 < c.ReceiveCount → r.MsgTimeStd =
      if 1 < c.ReceiveCount then
        StatsSampleStandardDeviation ((msgs.take c.ReceiveCount).map latency) else 0 := by
    intro hN
    have hlen := Run_some_length c msgs d r h
    rw [Run_eq c msgs d hN hlen] at h
    injection h with h
    rw [← h]
  constructor
  · intro h1
    rw [hstd (by omega), h1]
    simp
  · intro h1
    rw [hstd (by omega), if_pos h1]
    rfl

/-- Witness for C5 at `ReceiveCount = 1` fed one message: the std field is 0. -/
theorem worker_latency_std_witness :
    ∃ r, Client.Run ⟨0, 1⟩ [msgA] 1 = some r ∧ r.MsgTimeStd = 0 :=
  ⟨_, Run_eq ⟨0, 1⟩ [msgA] 1 (by decide) (by decide),
    (worker_latency_std ⟨0, 1⟩ [msgA] 1 _
      (Run_eq ⟨0, 1⟩ [msgA] 1 (by decide) (by decide))).1 rfl⟩

/-- C8: an inbound frame whose payload fails to decode is dropped in the
`onMessage` callback: the forwarded message sequence is unchanged, hence the
receive loop — its `receivedSoFar` counter and its slot array — and the whole
worker result are exactly what they would be had the malformed frame never
arrived. -/
theorem malformed_frame_dropped (c : Client) (xs ys : List (Option Payload × Int))
    (t : Int) (d : ℚ) :
    receiveMessages (xs ++ (none, t) :: ys) = receiveMessages (xs ++ ys) ∧
    runLoop c [] 0 (receiveMessages (xs ++ (none, t) :: ys)) =
      runLoop c [] 0 (receiveMessages (xs ++ ys)) ∧
    c.Run (receiveMessages (xs ++ (none, t) :: ys)) d =
      c.Run (receiveMessages (xs ++ ys)) d := by
  have h : receiveMessages (xs ++ (none, t) :: ys) = receiveMessages (xs ++ ys) := by
    simp [receiveMessages, onMessage]
  exact ⟨h, by rw [h], by rw [h]⟩

/-! ## Helper lemmas about the aggregation fold -/

/-- The guarded min update of the aggregation loop is the lattice `min`. -/
theorem if_lt_eq_min (a b : ℚ) : (if b < a then b else a) = min a b := by
  rw [min_def]; split_ifs <;> linarith

/-- The guarded max update of the aggregation loop is the lattice `max`. -/
theorem if_lt_eq_max (a b : ℚ) : (if a < b then b else a) = max a b := by
  rw [max_def]; split_ifs <;> linarith

theorem foldl_aggStep_Successes (rs : List RunResults) :
    ∀ init : TotalResults, (rs.foldl aggStep init).Successes =
      init.Successes + (rs.map RunResults.Successes).sum := by
  induction rs with
  | nil => intro init; simp
  | cons r rest ih =>
    intro init
    simp only [List.foldl_cons, List.map_cons, List.sum_cons]
    rw [ih]
    show init.Successes + r.Successes + _ = _
    omega

theorem foldl_aggStep_Duplicates (rs : List RunResults) :
    ∀ init : TotalResults, (rs.foldl aggStep init).Duplicates =
      init.Duplicates + (rs.map RunResults.Duplicates).sum := by
  induction rs with
  | nil => intro init; simp
  | cons r rest ih =>
    intro init
    simp only [List.foldl_cons, List.map_cons, List.sum_cons]
    rw [ih]
    show init.Duplicates + r.Duplicates + _ = _
    omega

theorem foldl_aggStep_MsgTimeMin (rs : List RunResults) :
    ∀ init : TotalResults, (rs.foldl aggStep init).MsgTimeMin =
      (rs.map RunResults.MsgTimeMin).foldl min init.MsgTimeMin := by
  induction rs with
  | nil => intro init; rfl
  | cons r rest ih =>
    intro init
    simp only [List.foldl_cons, List.map_cons]
    rw [ih]
    congr 1
    show (if r.MsgTimeMin < init.MsgTimeMin then r.MsgTimeMin else init.MsgTimeMin) = _
    exact if_lt_eq_min init.MsgTimeMin r.MsgTimeMin

theorem foldl_aggStep_MsgTimeMax (rs : List RunResults) :
    ∀ init : TotalResults, (rs.foldl aggStep init).MsgTimeMax =
      (rs.map RunResults.MsgTimeMax).foldl max init.MsgTimeMax := by
  induction rs with
  | nil => intro init; rfl
  | cons r rest ih =>
    intro init
    simp only [List.foldl_cons, List.map_cons]
    rw [ih]
    congr 1
    show (if init.MsgTimeMax < r.MsgTimeMax then r.MsgTimeMax else init.MsgTimeMax) = _
    exact if_lt_eq_max init.MsgTimeMax r.MsgTimeMax

theorem foldl_aggStep_Ratio (rs : List RunResults) :
    ∀ init : TotalResults, TotalResults.Ratio (rs.foldl aggStep init) =
      TotalResults.Ratio init := by
  induction rs with
  | nil => intro init; rfl
  | cons r rest ih =>
    intro init
    rw [List.foldl_cons, ih]
    rfl

/-- Pulling the seed of a `max` fold out of the fold. -/
theorem foldl_max_max (l : List ℚ) :
    ∀ a b : ℚ, l.foldl max (max a b) = max a (l.foldl max b) := by
  induction l with
  | nil => intro a b; rfl
  | cons c l ih =>
    intro a b
    simp only [List.foldl_cons]
    rw [max_assoc, ih]

theorem foldl_aggStep_TotalRunTime (rs : List RunResults) :
    ∀ init : TotalResults, (rs.foldl aggStep init).TotalRunTime =
      init.TotalRunTime := by
  induction rs with
  | nil => intro init; rfl
  | cons r rest ih =>
    intro init
    rw [List.foldl_cons, ih]
    rfl

theorem foldl_aggStep_TotalMsgsPerSec (rs : List RunResults) :
    ∀ init : TotalResults, (rs.foldl aggStep init).TotalMsgsPerSec =
      init.TotalMsgsPerSec + (rs.map RunResults.MsgsPerSec).sum := by
  induction rs with
  | nil => intro init; simp
  | cons r rest ih =>
    intro init
    simp only [List.foldl_cons, List.map_cons, List.sum_cons]
    rw [ih]
    show init.TotalMsgsPerSec + r.MsgsPerSec + _ = _
    ring

/-- Full characterization of the aggregator on a non-empty result list. -/
theorem calculateTotalResults_cons (r0 : RunResults) (rest : List RunResults)
    (totalTime : ℚ) (sampleSize : Int) :
    calculateTotalResults (r0 :: rest) totalTime sampleSize = some {
      Ratio := 0
      Successes := ((r0 :: rest).map RunResults.Successes).sum
      TotalRunTime := totalTime
      AvgRunTime := StatsMean ((r0 :: rest).map RunResults.RunTime)
      MsgTimeMin := StatsMin ((r0 :: rest).map RunResults.MsgTimeMin)
      MsgTimeMax := max 0 (StatsMax ((r0 :: rest).map RunResults.MsgTimeMax))
      MsgTimeMeanAvg := StatsMean ((r0 :: rest).map RunResults.MsgTimeMean)
      MsgTimeMeanStd := if 1 < sampleSize then
        StatsSampleStandardDeviation ((r0 :: rest).map RunResults.MsgTimeMean) else 0
      TotalMsgsPerSec := ((r0 :: rest).map RunResults.MsgsPerSec).sum
      AvgMsgsPerSec := StatsMean ((r0 :: rest).map RunResults.MsgsPerSec)
      Duplicates := ((r0 :: rest).map RunResults.Duplicates).sum } := by
  simp only [calculateTotalResults, Option.some_inj]
  rw [TotalResults.mk.injEq]
  refine ⟨?_, ?_, ?_, rfl, ?_, ?_, rfl, rfl, ?_, rfl, ?_⟩
  · rw [foldl_aggStep_Ratio]
  · rw [foldl_aggStep_Successes]
    show 0 + _ = _
    omega
  · rw [foldl_aggStep_TotalRunTime]
  · rw [foldl_aggStep_MsgTimeMin]
    simp only [List.map_cons, List.foldl_cons, min_self]
    rfl
  · rw [foldl_aggStep_MsgTimeMax]
    simp only [List.map_cons, List.foldl_cons]
    show List.foldl max (max 0 _) _ = _
    rw [foldl_max_max]
    rfl
  · rw [foldl_aggStep_TotalMsgsPerSec]
    show 0 + _ = _
    ring
  · rw [foldl_aggStep_Duplicates]
    show 0 + _ = _
    omega

/-! ## Aggregator claims -/

/-- A worker result with the given ID, Successes and Duplicates, unit run
time and throughput, and all-zero latency statistics. -/
def mkRes (id succ dup : Int) : RunResults :=
  { ID := id, Successes := succ, RunTime := 1, MsgTimeMin := 0, MsgTimeMax := 0,
    MsgTimeMean := 0, MsgTimeStd := 0, MsgsPerSec := 1, Duplicates := dup }

/-- A worker result whose latency statistics are all negative (possible under
clock skew: latencies are reported as-is, not clamped). -/
def negResult : RunResults :=
  { ID := 0, Successes := 1, RunTime := 1, MsgTimeMin := -3, MsgTimeMax := -1,
    MsgTimeMean := -2, MsgTimeStd := 0, MsgsPerSec := 1, Duplicates := 0 }

/-- C4: for every non-empty list of worker results the aggregate has
`Successes` equal to the sum of the per-worker `Successes` and `Duplicates`
equal to the sum of the per-worker `Duplicates`. -/
theorem aggregate_sums (results : List RunResults) (totalTime : ℚ) (sampleSize : Int)
    (h : results ≠ []) :
    ∃ t, calculateTotalResults results totalTime sampleSize = some t ∧
      t.Successes = (results.map RunResults.Successes).sum ∧
      t.Duplicates = (results.map RunResults.Duplicates).sum := by
  obtain ⟨r0, rest, rfl⟩ := List.exists_cons_of_ne_nil h
  exact ⟨_, calculateTotalResults_cons r0 rest totalTime sampleSize, rfl, rfl⟩

/-- Witness for C4: aggregating three results with Successes [100, 100, 100]
and Duplicates [0, 2, 1] yields Successes 300 and Duplicates 3. -/
theorem aggregate_sums_witness :
    [mkRes 0 100 0, mkRes 1 100 2, mkRes 2 100 1] ≠ [] ∧
    ∃ t, calculateTotalResults [mkRes 0 100 0, mkRes 1 100 2, mkRes 2 100 1] 1 3 =
        some t ∧ t.Successes = 300 ∧ t.Duplicates = 3 := by
  refine ⟨by simp, ?_⟩
  obtain ⟨t, ht, hs, hd⟩ :=
    aggregate_sums [mkRes 0 100 0, mkRes 1 100 2, mkRes 2 100 1] 1 3 (by simp)
  exact ⟨t, ht, by rw [hs]; decide, by rw [hd]; decide⟩

/-- C3 is false on the code: the `MsgTimeMax` accumulator starts at the zero
value 0 from `new(TotalResults)` and is only ever raised, so aggregating a
single worker result whose `MsgTimeMax` is -1 (all samples clock-skewed)
reports `MsgTimeMax = 0`, not the true maximum -1. -/
theorem aggregate_max_counterexample :
    Option.map TotalResults.MsgTimeMax (calculateTotalResults [negResult] 1 1) =
      some 0 ∧
    StatsMax (List.map RunResults.MsgTimeMax [negResult]) = -1 ∧ (0 : ℚ) ≠ -1 := by
  refine ⟨?_, by decide, by decide⟩
  rw [calculateTotalResults_cons]
  decide

/-- C3 (amended): for every non-empty list of worker results the aggregate's
`MsgTimeMin` is the minimum of the per-worker `MsgTimeMin` values (negative
values included), while `MsgTimeMax` is the maximum of 0 and the per-worker
`MsgTimeMax` values — the max accumulator is seeded with the zero value
instead of `results[0].MsgTimeMax`, so an all-negative set of per-worker
maxima is reported as 0. -/
theorem aggregate_min_max (results : List RunResults) (totalTime : ℚ) (sampleSize : Int)
    (h : results ≠ []) :
    ∃ t, calculateTotalResults results totalTime sampleSize = some t ∧
      t.MsgTimeMin = StatsMin (results.map RunResults.MsgTimeMin) ∧
      t.MsgTimeMax = max 0 (StatsMax (results.map RunResults.MsgTimeMax)) := by
  obtain ⟨r0, rest, rfl⟩ := List.exists_cons_of_ne_nil h
  exact ⟨_, calculateTotalResults_cons r0 rest totalTime sampleSize, rfl, rfl⟩

/-- Witness for the amended C3 on a single all-negative worker result. -/
theorem aggregate_min_max_witness :
    [negResult] ≠ [] ∧
    ∃ t, calculateTotalResults [negResult] 1 1 = some t ∧
      t.MsgTimeMin = -3 ∧ t.MsgTimeMax = 0 := by
  refine ⟨by simp, ?_⟩
  obtain ⟨t, ht, hmin, hmax⟩ := aggregate_min_max [negResult] 1 1 (by simp)
  exact ⟨t, ht, by rw [hmin]; decide, by rw [hmax]; decide⟩

/-- C6: the aggregate's `MsgTimeMeanStd` equals the sample standard deviation
of the per-worker `MsgTimeMean` values when `sampleSize > 1`, and is exactly 0
when `sampleSize = 1` (same NaN-avoidance convention as the worker). -/
theorem aggregate_mean_std (results : List RunResults) (totalTime : ℚ) (sampleSize : Int)
    (h : results ≠ []) :
    ∃ t, calculateTotalResults results totalTime sampleSize = some t ∧
      (sampleSize = 1 → t.MsgTimeMeanStd = 0) ∧
      (1 < sampleSize →
        t.MsgTimeMeanStd = specSampleStdDev (results.map RunResults.MsgTimeMean)) := by
  obtain ⟨r0, rest, rfl⟩ := List.exists_cons_of_ne_nil h
  refine ⟨_, calculateTotalResults_cons r0 rest totalTime sampleSize, ?_, ?_⟩
  · intro h1
    show (if 1 < sampleSize then
      StatsSampleStandardDeviation ((r0 :: rest).map RunResults.MsgTimeMean) else 0) = 0
    rw [h1]
    simp
  · intro h1
    show (if 1 < sampleSize then
      StatsSampleStandardDeviation ((r0 :: rest).map RunResults.MsgTimeMean) else 0) = _
    rw [if_pos h1]
    rfl

/-- Witness for C6: aggregating a single worker result with `sampleSize = 1`
yields `MsgTimeMeanStd = 0`. -/
theorem aggregate_mean_std_witness :
    [negResult] ≠ [] ∧
    ∃ t, calculateTotalResults [negResult] 1 1 = some t ∧ t.MsgTimeMeanStd = 0 := by
  refine ⟨by simp, ?_⟩
  obtain ⟨t, ht, h1, _⟩ := aggregate_mean_std [negResult] 1 1 (by simp)
  exact ⟨t, ht, h1 rfl⟩

/-- C7: the aggregator is a pure, deterministic function of its three inputs:
two invocations on equal inputs return equal values, and whenever both return
a result the two results agree in every one of the eleven fields. -/
theorem aggregator_deterministic (rs1 rs2 : List RunResults) (t1 t2 : ℚ) (n1 n2 : Int)
    (hrs : rs1 = rs2) (ht : t1 = t2) (hn : n1 = n2) :
    calculateTotalResults rs1 t1 n1 = calculateTotalResults rs2 t2 n2 ∧
    ∀ a b, calculateTotalResults rs1 t1 n1 = some a →
      calculateTotalResults rs2 t2 n2 = some b →
      TotalResults.Ratio a = TotalResults.Ratio b ∧ a.Successes = b.Successes ∧
      a.TotalRunTime = b.TotalRunTime ∧ a.AvgRunTime = b.AvgRunTime ∧
      a.MsgTimeMin = b.MsgTimeMin ∧ a.MsgTimeMax = b.MsgTimeMax ∧
      a.MsgTimeMeanAvg = b.MsgTimeMeanAvg ∧ a.MsgTimeMeanStd = b.MsgTimeMeanStd ∧
      a.TotalMsgsPerSec = b.TotalMsgsPerSec ∧ a.AvgMsgsPerSec = b.AvgMsgsPerSec ∧
      a.Duplicates = b.Duplicates := by
  subst hrs; subst ht; subst hn
  refine ⟨rfl, ?_⟩
  intro a b ha hb
  rw [ha] at hb
  injection hb with hb
  subst hb
  exact ⟨rfl, rfl, rfl, rfl, rfl, rfl, rfl, rfl, rfl, rfl, rfl⟩

/-- Witness for C7 at a concrete input. -/
theorem aggregator_deterministic_witness :
    calculateTotalResults [negResult] 1 1 = calculateTotalResults [negResult] 1 1 :=
  (aggregator_deterministic [negResult] [negResult] 1 1 1 1 rfl rfl rfl).1

/-- C10: every aggregate result the aggregator produces has ` Ratio = 0`: the
field exists in the output record (serialized as "ratio") but is never
assigned; it keeps the zero value from `new(TotalResults)`. -/
theorem aggregate_ratio_zero (results : List RunResults) (totalTime : ℚ)
    (sampleSize : Int) (t : TotalResults)
    (h : calculateTotalResults results totalTime sampleSize = some t) :
    TotalResults.Ratio t = 0 := by
  match results with
  | [] => simp [calculateTotalResults] at h
  | r0 :: rest =>
    rw [calculateTotalResults_cons] at h
    injection h with h
    rw [← h]

/-- Witness for C10 on a concrete aggregate. -/
theorem aggregate_ratio_zero_witness :
    ∃ t, calculateTotalResults [negResult] 1 1 = some t ∧ TotalResults.Ratio t = 0 :=
  ⟨_, calculateTotalResults_cons negResult [] 1 1,
    aggregate_ratio_zero [negResult] 1 1 _ (calculateTotalResults_cons negResult [] 1 1)⟩

/-! ## Collector claims -/

/-- A concrete result carrying WorkerID 0. -/
def resID0 : RunResults := mkRes 0 100 0

/-- A concrete result carrying WorkerID 1. -/
def resID1 : RunResults := mkRes 1 100 0

/-- C9 is false on the code: the collection loop in `main` stores the i-th
*arriving* result at index i (`results[i] = <-resCh`).  With two workers whose
results arrive in the order [worker 1, worker 0], position 0 of the assembled
list carries WorkerID 1, not 0: the list is indexed by arrival order, not by
worker ID. -/
theorem collector_order_counterexample :
    Option.map (List.map RunResults.ID) (collectResults 2 [resID1, resID0]) =
      some [1, 0] ∧ (1 : Int) ≠ 0 := by
  exact ⟨rfl, by decide⟩

/-- C9 (amended): for W ≥ 1 started workers and every order in which their
results arrive at the shared result channel, once W results have arrived the
collector stops after consuming exactly W of them, and the assembled list is
indexed by arrival order: the element at position k is the k-th result to
arrive, whatever its WorkerID. -/
theorem collector_arrival_order (W : Nat) (arrivals : List RunResults)
    (h : W ≤ arrivals.length) :
    ∃ l, collectResults W arrivals = some l ∧ l.length = W ∧
      ∀ k, k < W → l[k]? = arrivals[k]? := by
  refine ⟨arrivals.take W, by rw [collectResults, if_pos h], ?_, ?_⟩
  · rw [List.length_take]; omega
  · intro k hk
    exact List.getElem?_take_of_lt hk

/-- Witness for the amended C9: one worker, one arrival. -/
theorem collector_arrival_order_witness :
    1 ≤ [resID0].length ∧
    ∃ l, collectResults 1 [resID0] = some l ∧ l.length = 1 ∧
      ∀ k, k < 1 → l[k]? = [resID0][k]? :=
  ⟨by decide, collector_arrival_order 1 [resID0] (by decide)⟩
